import Mathlib

/-!
# Verification of the document-processing tool

This development embeds, in Lean 4, the parts of the
`document-processing-tool` repository needed to settle the frozen claims:

* the **Path Transformation & Collision-Safe Application Engine**
  (NameTransform variants, CollisionResolver, TransformPlanner,
  PlanExecutor, FlattenPlanner, BatchReport) — the engine's code (a
  Python/Flask backend) is not shipped under `src/`, only its HTTP
  callers and READMEs are, so every engine definition below is modelled
  from the specification's words and marked as such;
* the **frontend handlers** from `src/frontend/src` (and the unnamed
  frontend parts), which are shipped, translated directly from the
  TypeScript source.

Definitions come first, then the theorems settling the claims.
-/

set_option autoImplicit false

namespace DocTool

/-! ## Decimal rendering of natural numbers

The collision resolver appends a decimal disambiguator `(1)`, `(2)`, …
before the extension.  Indices are rendered in decimal with an explicit
fuel-structural function so that it computes by `decide`; injectivity of
the rendering is proved below (it bounds the number of colliding probe
indices). -/

/-- The decimal digit character for `d < 10`. -/
def digitChar : Nat → Char
  | 0 => '0' | 1 => '1' | 2 => '2' | 3 => '3' | 4 => '4'
  | 5 => '5' | 6 => '6' | 7 => '7' | 8 => '8' | 9 => '9'
  | _ => '*'

/-- Numeric value of a digit character. -/
def digitVal (c : Char) : Nat := c.toNat - 48

/-- Decimal digits of `n`, most significant first; `fuel` bounds recursion depth. -/
def decDigitsAux : Nat → Nat → List Char
  | 0, _ => []
  | fuel + 1, n =>
    if n < 10 then [digitChar n]
    else decDigitsAux fuel (n / 10) ++ [digitChar (n % 10)]

/-- Decimal digit list of `n` (most significant first). -/
def decDigits (n : Nat) : List Char := decDigitsAux (n + 1) n

/-- Evaluate a digit list back to a number. -/
def decVal (l : List Char) : Nat := l.foldl (fun acc c => acc * 10 + digitVal c) 0

/-! ## Data model of the engine

Modelled from the spec, section 3 (DATA MODEL).  The engine itself is
not under `src/`, so the definitions in this section are modelled from
the specification's words. -/

/-- A filesystem path, split as the containing directory and the base
name.  The engine renames within a directory and flatten moves into the
root, so this split carries exactly the structure the claims need. -/
structure Path where
  dir : String
  name : String
deriving DecidableEq, Repr

/-- Modelled from the spec: the kind of a scanned filesystem object
(`File|Directory`). -/
inductive EntryKind where
  | file
  | directory
deriving DecidableEq, Repr

/-- Modelled from the spec: an `Entry` is one filesystem object under
the root: path plus kind (the base name is `path.name`). -/
structure Entry where
  path : Path
  kind : EntryKind
deriving DecidableEq, Repr

/-- Modelled from the spec: status of a `PlannedMove`:
`Planned|Skipped(reason)|Applied|Failed(error)`. -/
inductive MoveStatus where
  | planned
  | skipped (reason : String)
  | applied
  | failed (error : String)
deriving DecidableEq, Repr

/-- Modelled from the spec: a `PlannedMove` — source, destination and
status — created by the planner. -/
structure PlannedMove where
  source : Path
  destination : Path
  status : MoveStatus
deriving DecidableEq, Repr

/-- An `applied[]` detail entry of the `BatchReport`. -/
structure AppliedItem where
  source : Path
  destination : Path
deriving DecidableEq, Repr

/-- A `skipped[]` detail entry of the `BatchReport`. -/
structure SkippedItem where
  source : Path
  reason : String
deriving DecidableEq, Repr

/-- A `failed[]` detail entry of the `BatchReport`. -/
structure FailedItem where
  source : Path
  destination : Path
  error : String
deriving DecidableEq, Repr

/-- Modelled from the spec: the `BatchReport` aggregate result — counts
plus the three detail lists. -/
structure BatchReport where
  plannedCount : Nat
  appliedCount : Nat
  skippedCount : Nat
  failedCount : Nat
  applied : List AppliedItem
  skipped : List SkippedItem
  failed : List FailedItem
deriving DecidableEq, Repr

/-! ## CollisionResolver

Modelled from the spec, section 4.3: accept a candidate that is neither
claimed nor on disk (or on disk only as the same source, a true no-op
rename); otherwise probe `name(1).ext`, `name(2).ext`, … for increasing
integers starting at 1 until a path is found that is neither claimed
nor present on disk.  The live filesystem is a finite list of existing
paths; the resolver never produces a new filesystem, i.e. it never
mutates it. -/

/-- Stem of a base name: everything before the last dot (the whole name
when there is no dot). -/
def stemOf (name : String) : List Char :=
  let r := name.data.reverse
  match r.dropWhile (fun c => c ≠ '.') with
  | [] => name.data
  | _ :: stemRev => stemRev.reverse

/-- Extension of a base name: the last dot and what follows it (empty
when there is no dot). -/
def extOf (name : String) : List Char :=
  let r := name.data.reverse
  match r.dropWhile (fun c => c ≠ '.') with
  | [] => []
  | _ :: _ => '.' :: (r.takeWhile (fun c => c ≠ '.')).reverse

/-- Modelled from the spec: insert the numeric disambiguator `(k)`
before the extension: `name(k).ext`. -/
def disambName (name : String) (k : Nat) : String :=
  String.mk (stemOf name ++ '(' :: decDigits k ++ ')' :: extOf name)

/-- The `k`-th disambiguated candidate path (same directory). -/
def disambPath (p : Path) (k : Nat) : Path :=
  ⟨p.dir, disambName p.name k⟩

/-- Modelled from the spec: probe increasing integers starting at `k`,
returning the first disambiguated candidate that is neither claimed nor
present on disk.  `fuel` bounds the recursion; the resolver charges
enough fuel that the bound is never reached (proved below). -/
def resolveProbe (cand : Path) (claimed disk : List Path) : Nat → Nat → Path
  | 0, k => disambPath cand k
  | fuel + 1, k =>
    if disambPath cand k ∉ claimed ∧ disambPath cand k ∉ disk then disambPath cand k
    else resolveProbe cand claimed disk fuel (k + 1)

/-- Modelled from the spec: `CollisionResolver.resolve`.  If the
candidate is neither claimed nor present on disk (or present only as
the same source being moved), accept it; otherwise probe `(1)`, `(2)`,
… for the first free slot. -/
def resolve (cand source : Path) (claimed disk : List Path) : Path :=
  if cand ∉ claimed ∧ (cand ∉ disk ∨ cand = source) then cand
  else resolveProbe cand claimed disk (claimed.length + disk.length + 1) 1

/-! ## NameTransform variants

Modelled from the spec, section 4.2: pure functions
`(name, index) -> string | Unchanged`. -/

/-- Result of a name transform: a candidate new name, or `Unchanged`
with the skip reason it surfaces as. -/
inductive TransformResult where
  | changed (newName : String)
  | unchanged (reason : String)
deriving DecidableEq, Repr

/-- A name transform: pure function of the name and the sequence index. -/
def NameTransform : Type := String → Nat → TransformResult

/-- The `startsWith` test used by the transforms, on the underlying
character lists. -/
def strStartsWith (pre s : String) : Bool :=
  List.isPrefixOf pre.data s.data

/-- Modelled from the spec: `AddPrefix(p)` returns `p+name` unless
`name` already starts with `p`, which surfaces as Skipped
"already prefixed". -/
def addPrefixT (p : String) : NameTransform := fun name _ =>
  if strStartsWith p name then .unchanged "already prefixed"
  else .changed (p ++ name)

/-- Modelled from the spec: `InitialPrefix` derives a single-letter
ordering key from the first character of `name` through a
transliteration table `tbl` (Latin letters pass through; unmapped
characters fall back to `#`), producing `<Letter>-<name>`.  The table
is a parameter: any correct ordering-letter table satisfies the
contract. -/
def initialPrefixT (tbl : Char → Option Char) : NameTransform := fun name _ =>
  match name.data with
  | [] => .unchanged "no match"
  | c :: _ =>
    match tbl c with
    | some L => .changed (String.mk (L :: '-' :: name.data))
    | none => .changed (String.mk ('#' :: '-' :: name.data))

/-- Modelled from the spec: `StripPrefixPattern` removes a leading
`<single-letter>-` token if present ( `#` counts, being what the
fallback of `InitialPrefix` emits); Unchanged otherwise. -/
def stripPrefixPatternT : NameTransform := fun name _ =>
  match name.data with
  | c :: '-' :: rest =>
    if c.isAlpha ∨ c = '#' then .changed (String.mk rest)
    else .unchanged "no match"
  | _ => .unchanged "no match"

/-! ## TransformPlanner and FlattenPlanner

Modelled from the spec, sections 4.4 and 4.6: for each entry in scanner
order, compute the candidate name; `Unchanged` records a Skipped move,
otherwise the destination is resolved through the CollisionResolver
against the running ClaimSet and recorded as Planned.  The FlattenPlanner
maps every descendant file to `root/<basename>` through the same
resolver, with the ClaimSet seeded with the files already directly in
the root. -/

/-- Modelled from the spec: the shared planning loop of
TransformPlanner and FlattenPlanner.  `candDir` gives the directory of the
candidate destination (the entry's own directory for renames, the root
for flatten); `claimed` is the running ClaimSet. -/
def planAux (t : NameTransform) (candDir : Path → String) (disk : List Path) :
    List Entry → Nat → List Path → List PlannedMove
  | [], _, _ => []
  | e :: es, idx, claimed =>
    match t e.path.name idx with
    | .unchanged r =>
      ⟨e.path, e.path, .skipped r⟩ :: planAux t candDir disk es (idx + 1) claimed
    | .changed n =>
      let d := resolve ⟨candDir e.path, n⟩ e.path claimed disk
      ⟨e.path, d, .planned⟩ :: planAux t candDir disk es (idx + 1) (d :: claimed)

/-- Modelled from the spec: `TransformPlanner.plan` — plan the scanned
entries with an empty initial ClaimSet, destinations in each entry's own
directory. -/
def TransformPlanner.plan (t : NameTransform) (disk : List Path)
    (entries : List Entry) : List PlannedMove :=
  planAux t Path.dir disk entries 0 []

/-- Modelled from the spec: `FlattenPlanner.planFlatten` — every
descendant file maps to `root/<basename>`, resolved through the same
CollisionResolver seeded with a ClaimSet holding every file already
directly in the root. -/
def FlattenPlanner.planFlatten (root : String) (disk : List Path)
    (subEntries : List Entry) (rootFiles : List Path) : List PlannedMove :=
  planAux (fun n _ => .changed n) (fun _ => root) disk subEntries 0 rootFiles

/-! ## PlanExecutor

Modelled from the spec, section 4.5: apply the moves in planned order;
on success transition to Applied, on failure append the source,
destination and error to `failed` and continue; skipped
items pass through.  The environment `env` says whether a given move
fails and with what error (permission, in-use file, disappeared
source). -/

/-- Modelled from the spec: one filesystem move — the source stops
existing, the destination starts existing. -/
def moveFile (fs : List Path) (src dst : Path) : List Path :=
  dst :: fs.erase src

/-- Modelled from the spec: the executor loop.  Returns the final
filesystem and the applied / skipped / failed detail lists, in plan
order. -/
def execAux (env : Path → Path → Option String) :
    List PlannedMove → List Path →
      List Path × List AppliedItem × List SkippedItem × List FailedItem
  | [], fs => (fs, [], [], [])
  | m :: ms, fs =>
    match m.status with
    | .skipped r =>
      let rest := execAux env ms fs
      (rest.1, rest.2.1, ⟨m.source, r⟩ :: rest.2.2.1, rest.2.2.2)
    | .planned =>
      match env m.source m.destination with
      | some err =>
        let rest := execAux env ms fs
        (rest.1, rest.2.1, rest.2.2.1, ⟨m.source, m.destination, err⟩ :: rest.2.2.2)
      | none =>
        let rest := execAux env ms (moveFile fs m.source m.destination)
        (rest.1, ⟨m.source, m.destination⟩ :: rest.2.1, rest.2.2.1, rest.2.2.2)
    | _ => execAux env ms fs

/-- Modelled from the spec: `PlanExecutor.execute` — apply a plan to a
filesystem, producing the final filesystem and the `BatchReport`. -/
def PlanExecutor.execute (env : Path → Path → Option String)
    (plan : List PlannedMove) (fs : List Path) : List Path × BatchReport :=
  let r := execAux env plan fs
  (r.1,
   { plannedCount := (plan.filter (fun m => decide (m.status = .planned))).length
     appliedCount := r.2.1.length
     skippedCount := r.2.2.1.length
     failedCount := r.2.2.2.length
     applied := r.2.1
     skipped := r.2.2.1
     failed := r.2.2.2 })

/-- Modelled from the spec: the full engine pipeline — plan with
`TransformPlanner`, execute with `PlanExecutor`, return the
`BatchReport`. -/
def runEngine (t : NameTransform) (disk : List Path) (entries : List Entry)
    (env : Path → Path → Option String) : BatchReport :=
  (PlanExecutor.execute env (TransformPlanner.plan t disk entries) disk).2

/-- Modelled from the spec: the flatten pipeline — plan with
`FlattenPlanner`, execute with `PlanExecutor`, return the
`BatchReport`. -/
def runFlatten (root : String) (disk : List Path) (subEntries : List Entry)
    (rootFiles : List Path) (env : Path → Path → Option String) : BatchReport :=
  (PlanExecutor.execute env
    (FlattenPlanner.planFlatten root disk subEntries rootFiles) disk).2

/-! ## Report projections used by the theorems -/

/-- The destinations of the Planned moves of a plan. -/
def plannedDests (plan : List PlannedMove) : List Path :=
  plan.filterMap (fun m =>
    if m.status = .planned then some m.destination else none)

/-- The `applied[]` list an execution of `plan` under `env` produces:
the Planned items whose move the environment lets succeed, in order. -/
def appliedOf (env : Path → Path → Option String)
    (plan : List PlannedMove) : List AppliedItem :=
  (plan.filter (fun m =>
    decide (m.status = .planned) && (env m.source m.destination).isNone)).map
    (fun m => ⟨m.source, m.destination⟩)

/-- The `skipped[]` list: the Skipped items with their reasons, in order. -/
def skippedOf (plan : List PlannedMove) : List SkippedItem :=
  plan.filterMap (fun m =>
    match m.status with
    | .skipped r => some ⟨m.source, r⟩
    | _ => none)

/-- The `failed[]` list: the Planned items whose move the environment
fails, with the environment's error, in order. -/
def failedOf (env : Path → Path → Option String)
    (plan : List PlannedMove) : List FailedItem :=
  plan.filterMap (fun m =>
    if m.status = .planned then
      (env m.source m.destination).map (fun e => ⟨m.source, m.destination, e⟩)
    else none)

/-! ## Request layer

Modelled from the spec, sections 6 and 7: request-level validation
(root path missing or not a directory, pattern fails to compile) aborts
with `status: "error"` before any filesystem access; otherwise the
engine runs and per-item failures surface inside `error_details` with
overall `status: "success"`. -/

/-- Response status. -/
inductive RespStatus where
  | success
  | error
deriving DecidableEq, Repr

/-- An `error_details` entry of a response. -/
structure ErrorDetail where
  file : Path
  error : String
deriving DecidableEq, Repr

/-- The response shape the engine exposes to its callers. -/
structure EngineResponse where
  status : RespStatus
  message : String
  errorDetails : List ErrorDetail
  failedCount : Nat
deriving DecidableEq, Repr

/-- Modelled from the spec: run one request.  `rootExists`, `rootIsDir`
and `patternValid` are the request-level validations; they are checked
eagerly, before any filesystem mutation.  Returns the response and the
filesystem after the run. -/
def runRequest (rootExists rootIsDir patternValid : Bool) (t : NameTransform)
    (entries : List Entry) (disk : List Path)
    (env : Path → Path → Option String) : EngineResponse × List Path :=
  if !rootExists || !rootIsDir then
    (⟨.error, "invalid root", [], 0⟩, disk)
  else if !patternValid then
    (⟨.error, "invalid pattern", [], 0⟩, disk)
  else
    let plan := TransformPlanner.plan t disk entries
    let r := PlanExecutor.execute env plan disk
    (⟨.success, "done",
      r.2.failed.map (fun f => ⟨f.source, f.error⟩),
      r.2.failed.length⟩, r.1)

/-! ## Frontend handlers

Translated from the TypeScript sources that are shipped under
`src/frontend/src` and `src/unnamed`. -/

/-- Outcome of a frontend form handler: the local error message it set
(if any) and the HTTP request body it sent (if any). -/
structure HandlerResult (β : Type) where
  errorMsg : Option String
  request : Option β

/-- The JS expression `s.trim()`: drop leading and trailing whitespace
characters. -/
def jsTrim (s : String) : String :=
  String.mk
    ((s.data.dropWhile Char.isWhitespace).reverse.dropWhile
      Char.isWhitespace).reverse

/-- The JS expression `s.replace(/\/$/, '')`: drop one trailing slash
if present. -/
def replaceTrailingSlash (s : String) : String :=
  if s.data.getLast? = some '/' then String.mk s.data.dropLast else s

/-- From `src/frontend/src/features/FilenameManager.tsx` line 18:
the displayed output directory. -/
def FilenameManager.outputDir (inputDir : String) : String :=
  if inputDir = "" then ""
  else replaceTrailingSlash inputDir ++ "/processed_files"

/-- From `src/frontend/src/features/FileCombiner.tsx` line 16. -/
def FileCombiner.outputDir (inputDir : String) : String :=
  if inputDir = "" then ""
  else replaceTrailingSlash inputDir ++ "/processed_files"

/-- From `src/unnamed/part_002` (TextConverter) line 17. -/
def TextConverter.outputDir (inputDir : String) : String :=
  if inputDir = "" then ""
  else replaceTrailingSlash inputDir ++ "/processed_files"

/-- From `src/unnamed/part_003` (PdfProcessor) line 35. -/
def PdfProcessor.outputDir (inputDir : String) : String :=
  if inputDir = "" then ""
  else replaceTrailingSlash inputDir ++ "/processed_files"

/-- Body of `POST /api/filename/add_prefix` (FilenameManager.tsx). -/
structure AddPrefixBody where
  directoryPath : String
  prefixValue : String

/-- From `FilenameManager.tsx` `handleAddPrefix` (lines 24-52): rejects
an empty or whitespace-only directory or an empty prefix with a local
error message, otherwise sends the request body. -/
def FilenameManager.handleAddPrefix (inputDir pv : String) :
    HandlerResult AddPrefixBody :=
  if inputDir = "" ∨ jsTrim inputDir = "" ∨ pv = "" then
    ⟨some "目录和前缀不能为空", none⟩
  else ⟨none, some ⟨inputDir, pv⟩⟩

/-- Body of `POST /api/file/combine` (FileCombiner.tsx). -/
structure CombineBody where
  inputDir : String
  outputDir : String
  fileTypeChar : String
  outputBaseName : String

/-- From `FileCombiner.tsx` `handleSubmit` (lines 20-58): validates the
directory, the output base name, and the file-type character before
sending. -/
def FileCombiner.handleSubmit (inputDir fileTypeChar outputBaseName : String) :
    HandlerResult CombineBody :=
  if inputDir = "" ∨ jsTrim inputDir = "" then ⟨some "操作目录不能为空", none⟩
  else if outputBaseName = "" ∨ jsTrim outputBaseName = "" then
    ⟨some "请输入输出文件名", none⟩
  else if fileTypeChar = "" ∨ (fileTypeChar ≠ "p" ∧ fileTypeChar ≠ "t") then
    ⟨some "请选择正确的文件类型", none⟩
  else ⟨none, some ⟨inputDir, FileCombiner.outputDir inputDir,
    fileTypeChar, outputBaseName⟩⟩

/-- Body of `POST /api/text/epub_to_txt` (TextConverter, part_002). -/
structure EpubToTxtBody where
  inputDir : String
  outputDir : String

/-- From `src/unnamed/part_002` `handleEpubToTxt` (lines 20-41):
rejects an empty or whitespace-only directory, otherwise sends the
request body. -/
def TextConverter.handleEpubToTxt (inputDir : String) :
    HandlerResult EpubToTxtBody :=
  if inputDir = "" ∨ jsTrim inputDir = "" then ⟨some "操作目录不能为空", none⟩
  else ⟨none, some ⟨inputDir, TextConverter.outputDir inputDir⟩⟩

/-- Body of `POST /api/pdf/trim_pages` (PdfProcessor, part_003). -/
structure TrimPagesBody where
  inputDir : String
  outputDir : String
  trimType : String
  numPages : String

/-- From `src/unnamed/part_003` `handleTrimPages` (lines 39-69). -/
def PdfProcessor.handleTrimPages (inputDir trimType numPages : String) :
    HandlerResult TrimPagesBody :=
  if inputDir = "" ∨ jsTrim inputDir = "" then ⟨some "操作目录不能为空", none⟩
  else ⟨none, some ⟨inputDir, PdfProcessor.outputDir inputDir,
    trimType, numPages⟩⟩

/-! ## formatDetails

Translated from `src/frontend/src/utils/formatDetails.ts`. -/

/-- A `moved_files_details` row. -/
structure MovedRow where
  file : String
  destinationFolder : String
  movedToFile : String

/-- A `skipped_files_details` row. -/
structure SkippedRow where
  file : String
  reason : String

/-- An `error_details` row. -/
structure ErrorRow where
  file : String
  error : String

/-- A field value of the backend `details` object, as far as
`formatDetails` inspects values: numbers, the four known list fields,
and anything else. -/
inductive JVal where
  | num (n : Int)
  | strs (xs : List String)
  | movedRows (xs : List MovedRow)
  | skippedRows (xs : List SkippedRow)
  | errorRows (xs : List ErrorRow)
  | other

/-- The `details` object: its enumerable fields, in order. -/
def Details : Type := List (String × JVal)

/-- Field access, `details.k`. -/
def getField (d : Details) (k : String) : Option JVal :=
  (d.find? (fun kv => decide (kv.1 = k))).map (·.2)

/-- Sequential string concatenation (the `out +=` accumulation). -/
def strConcat : List String → String
  | [] => ""
  | s :: l => s ++ strConcat l

/-- From `formatDetails.ts` lines 6-12: one log line per message; a
message starting with a `[SUCCESS]`, `[INFO]`, `[WARN]` or `[ERROR]`
tag gets the corresponding emoji. -/
def fmtMsg (msg : String) : String :=
  if strStartsWith "[SUCCESS]" msg then "  ✅ " ++ msg ++ "\n"
  else if strStartsWith "[INFO]" msg then "  ℹ️ " ++ msg ++ "\n"
  else if strStartsWith "[WARN]" msg then "  ⚠️ " ++ msg ++ "\n"
  else if strStartsWith "[ERROR]" msg then "  ❌ " ++ msg ++ "\n"
  else "  " ++ msg ++ "\n"

/-- The messages section (`if (details.messages) …`). -/
def msgSection (d : Details) : String :=
  match getField d "messages" with
  | some (.strs xs) => "消息列表：\n" ++ strConcat (xs.map fmtMsg)
  | _ => ""

/-- The moved-files section (`if (x && x.length) …`). -/
def movedSection (d : Details) : String :=
  match getField d "moved_files_details" with
  | some (.movedRows xs) =>
    if xs.length ≠ 0 then
      "\n移动文件明细：\n" ++ strConcat (xs.map (fun it =>
        "  - " ++ it.file ++ " → " ++ it.destinationFolder ++ "/"
          ++ it.movedToFile ++ "\n"))
    else ""
  | _ => ""

/-- The skipped-files section. -/
def skippedSection (d : Details) : String :=
  match getField d "skipped_files_details" with
  | some (.skippedRows xs) =>
    if xs.length ≠ 0 then
      "\n跳过文件明细：\n" ++ strConcat (xs.map (fun it =>
        "  - " ++ it.file ++ "，原因：" ++ it.reason ++ "\n"))
    else ""
  | _ => ""

/-- The error-details section. -/
def errSection (d : Details) : String :=
  match getField d "error_details" with
  | some (.errorRows xs) =>
    if xs.length ≠ 0 then
      "\n错误明细：\n" ++ strConcat (xs.map (fun it =>
        "  - " ++ it.file ++ "，错误：" ++ it.error ++ "\n"))
    else ""
  | _ => ""

/-- One iteration of the numeric-counters loop (`Object.entries`): a
line is emitted only for number values whose key is not "success". -/
def numLine (k : String) (v : JVal) : String :=
  match v with
  | .num n => if k = "success" then "" else "  " ++ k ++ ": " ++ toString n ++ "\n"
  | _ => ""

/-- The numeric-counters section, over all enumerable fields in order. -/
def numSection : Details → String
  | [] => ""
  | kv :: rest => numLine kv.1 kv.2 ++ numSection rest

/-- From `formatDetails.ts`: the full rendering, section by section. -/
def formatDetails (d : Details) : String :=
  msgSection d ++ movedSection d ++ skippedSection d ++ errSection d
    ++ numSection d

end DocTool

namespace DocTool

/-! # Theorems -/

/-! ## Decimal rendering -/

theorem digitVal_digitChar {d : Nat} (h : d < 10) : digitVal (digitChar d) = d := by
  interval_cases d <;> decide

theorem decVal_append (l : List Char) (c : Char) :
    decVal (l ++ [c]) = decVal l * 10 + digitVal c := by
  simp [decVal, List.foldl_append]

theorem decVal_decDigitsAux :
    ∀ (fuel n : Nat), n < 10 ^ fuel → decVal (decDigitsAux fuel n) = n := by
  intro fuel
  induction fuel with
  | zero => intro n h; simp [decDigitsAux, decVal]; omega
  | succ fuel ih =>
    intro n h
    by_cases hn : n < 10
    · simp [decDigitsAux, hn, decVal, digitVal_digitChar hn]
    · have hdiv : n / 10 < 10 ^ fuel := by
        rw [Nat.div_lt_iff_lt_mul (by norm_num : 0 < 10)]
        calc n < 10 ^ (fuel + 1) := h
          _ = 10 ^ fuel * 10 := by ring
      rw [decDigitsAux]
      simp only [hn, if_false]
      rw [decVal_append, ih _ hdiv, digitVal_digitChar (Nat.mod_lt _ (by norm_num))]
      omega

theorem decVal_decDigits (n : Nat) : decVal (decDigits n) = n := by
  have h : n < 10 ^ (n + 1) := by
    calc n < n + 1 := Nat.lt_succ_self n
      _ ≤ 10 ^ (n + 1) := Nat.le_of_lt (Nat.lt_pow_self (by norm_num) _)
  exact decVal_decDigitsAux (n + 1) n h

theorem decDigits_injective : Function.Injective decDigits := by
  intro a b h
  have := decVal_decDigits a
  rw [h, decVal_decDigits] at this
  omega

/-! ## CollisionResolver -/

theorem disambName_injective (name : String) :
    Function.Injective (disambName name) := by
  intro a b h
  unfold disambName at h
  have hdata : stemOf name ++ '(' :: decDigits a ++ ')' :: extOf name
      = stemOf name ++ '(' :: decDigits b ++ ')' :: extOf name := by
    exact congrArg String.data h
  simp only [List.append_assoc, List.cons_append] at hdata
  have h1 := List.append_cancel_left hdata
  have h2 : decDigits a ++ ')' :: extOf name = decDigits b ++ ')' :: extOf name :=
    (List.cons.injEq _ _ _ _).mp h1 |>.2
  exact decDigits_injective (List.append_cancel_right h2)

theorem disambPath_injective (p : Path) :
    Function.Injective (disambPath p) := by
  intro a b h
  unfold disambPath at h
  exact disambName_injective p.name ((Path.mk.injEq _ _ _ _).mp h).2

/-- Pigeonhole: in any window of `claimed.length + disk.length + 1`
consecutive probe indices there is one whose disambiguated candidate is
neither claimed nor on disk. -/
theorem exists_free_probe (cand : Path) (claimed disk : List Path) (k : Nat) :
    ∃ j, k ≤ j ∧ j < k + (claimed.length + disk.length + 1) ∧
      disambPath cand j ∉ claimed ∧ disambPath cand j ∉ disk := by
  by_contra hno
  push_neg at hno
  set N := claimed.length + disk.length with hN
  have hmem : ∀ j ∈ Finset.Ico k (k + (N + 1)),
      disambPath cand j ∈ (claimed ++ disk).toFinset := by
    intro j hj
    rw [Finset.mem_Ico] at hj
    have := hno j hj.1 hj.2
    rw [List.mem_toFinset, List.mem_append]
    by_cases hc : disambPath cand j ∈ claimed
    · exact Or.inl hc
    · exact Or.inr (this hc)
  have hinj : Set.InjOn (disambPath cand) (Finset.Ico k (k + (N + 1))) :=
    fun a _ b _ h => disambPath_injective cand h
  have hcard := Finset.card_le_card_of_injOn (disambPath cand) hmem hinj
  rw [Nat.card_Ico] at hcard
  have hlen : (claimed ++ disk).toFinset.card ≤ N := by
    calc (claimed ++ disk).toFinset.card ≤ (claimed ++ disk).length :=
          (claimed ++ disk).toFinset_card_le
      _ = N := by rw [List.length_append]
  omega

/-- The probe loop returns the first free disambiguated candidate at or
after the starting index, provided one exists within the fuel window. -/
theorem resolveProbe_spec (cand : Path) (claimed disk : List Path) :
    ∀ (fuel k : Nat),
      (∃ j, k ≤ j ∧ j < k + fuel ∧
        disambPath cand j ∉ claimed ∧ disambPath cand j ∉ disk) →
      ∃ j, k ≤ j ∧
        (disambPath cand j ∉ claimed ∧ disambPath cand j ∉ disk) ∧
        (∀ i, k ≤ i → i < j →
          disambPath cand i ∈ claimed ∨ disambPath cand i ∈ disk) ∧
        resolveProbe cand claimed disk fuel k = disambPath cand j := by
  intro fuel
  induction fuel with
  | zero =>
    rintro k ⟨j, h1, h2, _⟩
    omega
  | succ fuel ih =>
    intro k hex
    by_cases hk : disambPath cand k ∉ claimed ∧ disambPath cand k ∉ disk
    · refine ⟨k, le_refl k, hk, ?_, ?_⟩
      · intro i h1 h2; omega
      · simp [resolveProbe, hk]
    · have hkbad : disambPath cand k ∈ claimed ∨ disambPath cand k ∈ disk := by
        rcases not_and_or.mp hk with h | h
        · exact Or.inl (not_not.mp h)
        · exact Or.inr (not_not.mp h)
      have hex' : ∃ j, k + 1 ≤ j ∧ j < (k + 1) + fuel ∧
          disambPath cand j ∉ claimed ∧ disambPath cand j ∉ disk := by
        obtain ⟨j, hj1, hj2, hj3⟩ := hex
        refine ⟨j, ?_, by omega, hj3⟩
        rcases Nat.eq_or_lt_of_le hj1 with h | h
        · exfalso; rw [← h] at hj3; exact hk hj3
        · omega
      obtain ⟨j, hj1, hj2, hj3, hj4⟩ := ih (k + 1) hex'
      refine ⟨j, by omega, hj2, ?_, ?_⟩
      · intro i h1 h2
        rcases Nat.eq_or_lt_of_le h1 with h | h
        · rw [← h]; exact hkbad
        · exact hj3 i h (by omega)
      · simp only [resolveProbe, if_neg hk]
        exact hj4

/-- What the resolver returns is never a path claimed in this run, and
is on disk only when the move is a true no-op rename of its own
source. -/
theorem resolve_free (cand source : Path) (claimed disk : List Path) :
    resolve cand source claimed disk ∉ claimed ∧
      (resolve cand source claimed disk ∉ disk ∨
        resolve cand source claimed disk = source) := by
  unfold resolve
  by_cases h : cand ∉ claimed ∧ (cand ∉ disk ∨ cand = source)
  · simp only [if_pos h]; exact h
  · simp only [if_neg h]
    obtain ⟨j, _, hfree, _, heq⟩ :=
      resolveProbe_spec cand claimed disk (claimed.length + disk.length + 1) 1
        (exists_free_probe cand claimed disk 1)
    rw [heq]
    exact ⟨hfree.1, Or.inl hfree.2⟩

/-! ## Planner invariants -/

/-- The planner emits exactly one move per scanned entry, in order,
keyed by the entry's path. -/
theorem planAux_sources (t : NameTransform) (candDir : Path → String)
    (disk : List Path) :
    ∀ (es : List Entry) (idx : Nat) (claimed : List Path),
      (planAux t candDir disk es idx claimed).map (·.source)
        = es.map (·.path) := by
  intro es
  induction es with
  | nil => intro idx claimed; rfl
  | cons e es ih =>
    intro idx claimed
    unfold planAux
    cases t e.path.name idx with
    | unchanged r => simp [ih]
    | changed n => simp [ih]

/-- Every move the planner emits is either Planned, or Skipped with its
destination equal to its source. -/
theorem planAux_shape (t : NameTransform) (candDir : Path → String)
    (disk : List Path) :
    ∀ (es : List Entry) (idx : Nat) (claimed : List Path),
      ∀ m ∈ planAux t candDir disk es idx claimed,
        m.status = .planned ∨
          (m.destination = m.source ∧ ∃ r, m.status = .skipped r) := by
  intro es
  induction es with
  | nil => intro idx claimed m hm; simp [planAux] at hm
  | cons e es ih =>
    intro idx claimed m hm
    unfold planAux at hm
    cases ht : t e.path.name idx with
    | unchanged r =>
      rw [ht] at hm
      rcases List.mem_cons.mp hm with h | h
      · subst h; exact Or.inr ⟨rfl, r, rfl⟩
      · exact ih (idx + 1) claimed m h
    | changed n =>
      rw [ht] at hm
      rcases List.mem_cons.mp hm with h | h
      · subst h; exact Or.inl rfl
      · exact ih (idx + 1) _ m h

/-- A Planned move's destination is not in the initial ClaimSet, and is
on disk only when the move is a true no-op rename of its own source. -/
theorem planAux_planned_dest (t : NameTransform) (candDir : Path → String)
    (disk : List Path) :
    ∀ (es : List Entry) (idx : Nat) (claimed : List Path),
      ∀ m ∈ planAux t candDir disk es idx claimed, m.status = .planned →
        m.destination ∉ claimed ∧
          (m.destination ∉ disk ∨ m.destination = m.source) := by
  intro es
  induction es with
  | nil => intro idx claimed m hm; simp [planAux] at hm
  | cons e es ih =>
    intro idx claimed m hm hp
    unfold planAux at hm
    cases ht : t e.path.name idx with
    | unchanged r =>
      rw [ht] at hm
      rcases List.mem_cons.mp hm with h | h
      · subst h; simp at hp
      · exact ih (idx + 1) claimed m h hp
    | changed n =>
      rw [ht] at hm
      rcases List.mem_cons.mp hm with h | h
      · subst h
        exact resolve_free ⟨candDir e.path, n⟩ e.path claimed disk
      · have := ih (idx + 1) _ m h hp
        exact ⟨fun hc => this.1 (List.mem_cons_of_mem _ hc), this.2⟩

/-- No two moves of one plan share a destination, provided the scanned
entries are distinct paths that all exist on disk. -/
theorem planAux_dests_nodup (t : NameTransform) (candDir : Path → String)
    (disk : List Path) :
    ∀ (es : List Entry) (idx : Nat) (claimed : List Path),
      (es.map (·.path)).Nodup → (∀ e ∈ es, e.path ∈ disk) →
      ((planAux t candDir disk es idx claimed).map (·.destination)).Nodup := by
  intro es
  induction es with
  | nil => intro idx claimed _ _; simp [planAux]
  | cons e es ih =>
    intro idx claimed hnd hdisk
    have hnd' : (es.map (·.path)).Nodup := (List.nodup_cons.mp hnd).2
    have hoth : e.path ∉ es.map (·.path) := (List.nodup_cons.mp hnd).1
    have hdisk' : ∀ e' ∈ es, e'.path ∈ disk :=
      fun e' h => hdisk e' (List.mem_cons_of_mem _ h)
    have hsrc : ∀ (cl : List Path) m,
        m ∈ planAux t candDir disk es (idx + 1) cl → m.source ∈ es.map (·.path) := by
      intro cl m hm
      have : m.source ∈ (planAux t candDir disk es (idx + 1) cl).map (·.source) :=
        List.mem_map_of_mem _ hm
      rwa [planAux_sources] at this
    have hsrcdisk : ∀ (cl : List Path) m,
        m ∈ planAux t candDir disk es (idx + 1) cl → m.source ∈ disk := by
      intro cl m hm
      obtain ⟨e', he', heq⟩ := List.mem_map.mp (hsrc cl m hm)
      rw [← heq]; exact hdisk' e' he'
    unfold planAux
    cases ht : t e.path.name idx with
    | unchanged r =>
      rw [List.map_cons, List.nodup_cons]
      refine ⟨?_, ih (idx + 1) claimed hnd' hdisk'⟩
      intro hmem
      obtain ⟨m, hm, hdest⟩ := List.mem_map.mp hmem
      have hdest' : m.destination = e.path := hdest
      rcases planAux_shape t candDir disk es (idx + 1) claimed m hm with hp | ⟨hds, _⟩
      · rcases (planAux_planned_dest t candDir disk es (idx + 1) claimed m hm hp).2
          with hnd2 | hsq
        · rw [hdest'] at hnd2
          exact hnd2 (hdisk e (List.mem_cons_self e es))
        · apply hoth
          rw [← hdest', hsq]
          exact hsrc claimed m hm
      · apply hoth
        rw [← hdest', hds]
        exact hsrc claimed m hm
    | changed n =>
      rw [List.map_cons, List.nodup_cons]
      set d := resolve ⟨candDir e.path, n⟩ e.path claimed disk with hd
      refine ⟨?_, ih (idx + 1) (d :: claimed) hnd' hdisk'⟩
      intro hmem
      obtain ⟨m, hm, hdest⟩ := List.mem_map.mp hmem
      have hdest' : m.destination = d := hdest
      rcases planAux_shape t candDir disk es (idx + 1) (d :: claimed) m hm
        with hp | ⟨hds, _⟩
      · have hnc := (planAux_planned_dest t candDir disk es (idx + 1) (d :: claimed)
          m hm hp).1
        rw [hdest'] at hnc
        exact hnc (List.mem_cons_self d claimed)
      · rcases (resolve_free ⟨candDir e.path, n⟩ e.path claimed disk).2 with hnd2 | hsq
        · rw [← hd] at hnd2
          apply hnd2
          rw [← hdest', hds]
          exact hsrcdisk (d :: claimed) m hm
        · rw [← hd] at hsq
          apply hoth
          rw [← hsq, ← hdest', hds]
          exact hsrc (d :: claimed) m hm

/-! ## Executor characterization -/

/-- The executor's three detail lists are exactly the plan's Planned
items split by whether the environment lets their move succeed, plus the
Skipped items — independent of the filesystem and of each other, so a
failure never changes how the remaining items are handled. -/
theorem execAux_report (env : Path → Path → Option String) :
    ∀ (plan : List PlannedMove) (fs : List Path),
      (execAux env plan fs).2.1 = appliedOf env plan ∧
      (execAux env plan fs).2.2.1 = skippedOf plan ∧
      (execAux env plan fs).2.2.2 = failedOf env plan := by
  intro plan
  induction plan with
  | nil => intro fs; exact ⟨rfl, rfl, rfl⟩
  | cons m ms ih =>
    intro fs
    cases hst : m.status with
    | skipped r =>
      obtain ⟨h1, h2, h3⟩ := ih fs
      refine ⟨?_, ?_, ?_⟩ <;>
        simp [execAux, hst, appliedOf, skippedOf, failedOf, List.filter_cons,
          List.filterMap_cons, h1, h2, h3]
    | planned =>
      cases henv : env m.source m.destination with
      | none =>
        obtain ⟨h1, h2, h3⟩ := ih (moveFile fs m.source m.destination)
        refine ⟨?_, ?_, ?_⟩ <;>
          simp [execAux, hst, henv, appliedOf, skippedOf, failedOf,
            List.filter_cons, List.filterMap_cons, h1, h2, h3]
      | some err =>
        obtain ⟨h1, h2, h3⟩ := ih fs
        refine ⟨?_, ?_, ?_⟩ <;>
          simp [execAux, hst, henv, appliedOf, skippedOf, failedOf,
            List.filter_cons, List.filterMap_cons, h1, h2, h3]
    | applied =>
      obtain ⟨h1, h2, h3⟩ := ih fs
      refine ⟨?_, ?_, ?_⟩ <;>
        simp [execAux, hst, appliedOf, skippedOf, failedOf, List.filter_cons,
          List.filterMap_cons, h1, h2, h3]
    | failed e =>
      obtain ⟨h1, h2, h3⟩ := ih fs
      refine ⟨?_, ?_, ?_⟩ <;>
        simp [execAux, hst, appliedOf, skippedOf, failedOf, List.filter_cons,
          List.filterMap_cons, h1, h2, h3]

/-- The `BatchReport` the executor returns carries exactly those lists. -/
theorem execute_report (env : Path → Path → Option String)
    (plan : List PlannedMove) (fs : List Path) :
    (PlanExecutor.execute env plan fs).2.applied = appliedOf env plan ∧
    (PlanExecutor.execute env plan fs).2.skipped = skippedOf plan ∧
    (PlanExecutor.execute env plan fs).2.failed = failedOf env plan :=
  execAux_report env plan fs

/-- Splitting a plan of Planned and Skipped moves into the three report
lists is a permutation of the plan's sources. -/
theorem partition_perm (env : Path → Path → Option String) :
    ∀ (plan : List PlannedMove),
      (∀ m ∈ plan, m.status = .planned ∨ ∃ r, m.status = .skipped r) →
      ((appliedOf env plan).map (·.source) ++ (skippedOf plan).map (·.source)
        ++ (failedOf env plan).map (·.source)).Perm (plan.map (·.source)) := by
  intro plan
  induction plan with
  | nil => intro _; simp [appliedOf, skippedOf, failedOf]
  | cons m ms ih =>
    intro hstat
    have hperm := ih (fun m' hm' => hstat m' (List.mem_cons_of_mem _ hm'))
    rcases hstat m (List.mem_cons_self m ms) with hp | ⟨r, hr⟩
    · cases henv : env m.source m.destination with
      | none =>
        have hap : appliedOf env (m :: ms)
            = ⟨m.source, m.destination⟩ :: appliedOf env ms := by
          simp [appliedOf, List.filter_cons, hp, henv]
        have hsk : skippedOf (m :: ms) = skippedOf ms := by
          simp [skippedOf, List.filterMap_cons, hp]
        have hfl : failedOf env (m :: ms) = failedOf env ms := by
          simp [failedOf, List.filterMap_cons, hp, henv]
        rw [hap, hsk, hfl, List.map_cons]
        exact hperm.cons m.source
      | some err =>
        have hap : appliedOf env (m :: ms) = appliedOf env ms := by
          simp [appliedOf, List.filter_cons, hp, henv]
        have hsk : skippedOf (m :: ms) = skippedOf ms := by
          simp [skippedOf, List.filterMap_cons, hp]
        have hfl : failedOf env (m :: ms)
            = ⟨m.source, m.destination, err⟩ :: failedOf env ms := by
          simp [failedOf, List.filterMap_cons, hp, henv]
        rw [hap, hsk, hfl, List.map_cons]
        exact List.perm_middle.trans (hperm.cons m.source)
    · have hap : appliedOf env (m :: ms) = appliedOf env ms := by
        simp [appliedOf, List.filter_cons, hr]
      have hsk : skippedOf (m :: ms) = ⟨m.source, r⟩ :: skippedOf ms := by
        simp [skippedOf, List.filterMap_cons, hr]
      have hfl : failedOf env (m :: ms) = failedOf env ms := by
        simp [failedOf, List.filterMap_cons, hr]
      rw [hap, hsk, hfl, List.map_cons]
      exact (List.perm_middle.append_right _).trans (hperm.cons m.source)

/-- An applied item's destination that pre-existed on disk is the path
of one of the scanned entries (a source of the run). -/
theorem appliedOf_no_overwrite (t : NameTransform) (candDir : Path → String)
    (disk : List Path) (es : List Entry) (idx : Nat) (claimed : List Path)
    (env : Path → Path → Option String) :
    ∀ a ∈ appliedOf env (planAux t candDir disk es idx claimed),
      a.destination ∈ disk → a.destination ∈ es.map (·.path) := by
  intro a ha hdk
  obtain ⟨m, hm, heq⟩ := List.mem_map.mp ha
  have hmplan : m ∈ planAux t candDir disk es idx claimed :=
    List.mem_of_mem_filter hm
  have hp : m.status = .planned := by
    have := List.of_mem_filter hm
    simp only [Bool.and_eq_true, decide_eq_true_eq] at this
    exact this.1
  have hdest : a.destination = m.destination := by rw [← heq]
  rcases (planAux_planned_dest t candDir disk es idx claimed m hmplan hp).2
    with hnd | hsq
  · rw [hdest] at hdk
    exact absurd hdk hnd
  · have : m.source ∈ (planAux t candDir disk es idx claimed).map (·.source) :=
      List.mem_map_of_mem _ hmplan
    rw [planAux_sources] at this
    rw [hdest, hsq]
    exact this

/-! ## Claim C3 -/

/-- C3: for every candidate path that is already claimed in the ClaimSet
or present on disk (and not a true no-op rename of the same source),
`CollisionResolver.resolve` terminates and returns the candidate with a
numeric disambiguator inserted before the extension, using the smallest
integer index starting at 1 whose resulting path is neither claimed nor
present on disk; in particular, when two sources both map to `x.txt`,
one resolves to `x.txt` and the other to `x(1).txt`.  (The resolver is a
pure function of candidate, source, ClaimSet and disk: it never mutates
the filesystem.) -/
theorem collisionResolver_least_free_index
    (cand source : Path) (claimed disk : List Path)
    (h : cand ∈ claimed ∨ (cand ∈ disk ∧ cand ≠ source)) :
    (∃ k, 1 ≤ k ∧
      (disambPath cand k ∉ claimed ∧ disambPath cand k ∉ disk) ∧
      (∀ j, 1 ≤ j → j < k →
        disambPath cand j ∈ claimed ∨ disambPath cand j ∈ disk) ∧
      resolve cand source claimed disk = disambPath cand k) ∧
    resolve ⟨"/root", "x.txt"⟩ ⟨"/root", "a.txt"⟩ []
        [⟨"/root", "a.txt"⟩, ⟨"/root", "b.txt"⟩] = ⟨"/root", "x.txt"⟩ ∧
    resolve ⟨"/root", "x.txt"⟩ ⟨"/root", "b.txt"⟩ [⟨"/root", "x.txt"⟩]
        [⟨"/root", "a.txt"⟩, ⟨"/root", "b.txt"⟩] = ⟨"/root", "x(1).txt"⟩ := by
  have hneg : ¬(cand ∉ claimed ∧ (cand ∉ disk ∨ cand = source)) := by
    rcases h with h | ⟨h1, h2⟩
    · intro hc; exact hc.1 h
    · intro hc
      rcases hc.2 with h3 | h3
      · exact h3 h1
      · exact h2 h3
  refine ⟨?_, by decide, by decide⟩
  obtain ⟨j, hj1, hj2, hj3, hj4⟩ :=
    resolveProbe_spec cand claimed disk (claimed.length + disk.length + 1) 1
      (exists_free_probe cand claimed disk 1)
  refine ⟨j, hj1, hj2, hj3, ?_⟩
  unfold resolve
  rw [if_neg hneg]
  exact hj4

/-- Witness for C3 at a concrete colliding input. -/
theorem collisionResolver_least_free_index_witness :
    ((⟨"/r", "x.txt"⟩ : Path) ∈ ([⟨"/r", "x.txt"⟩] : List Path) ∨
      ((⟨"/r", "x.txt"⟩ : Path) ∈ ([⟨"/r", "a.txt"⟩] : List Path) ∧
        (⟨"/r", "x.txt"⟩ : Path) ≠ ⟨"/r", "b.txt"⟩)) ∧
    (∃ k, 1 ≤ k ∧
      (disambPath ⟨"/r", "x.txt"⟩ k ∉ ([⟨"/r", "x.txt"⟩] : List Path) ∧
        disambPath ⟨"/r", "x.txt"⟩ k ∉ ([⟨"/r", "a.txt"⟩] : List Path)) ∧
      (∀ j, 1 ≤ j → j < k →
        disambPath ⟨"/r", "x.txt"⟩ j ∈ ([⟨"/r", "x.txt"⟩] : List Path) ∨
          disambPath ⟨"/r", "x.txt"⟩ j ∈ ([⟨"/r", "a.txt"⟩] : List Path)) ∧
      resolve ⟨"/r", "x.txt"⟩ ⟨"/r", "b.txt"⟩ [⟨"/r", "x.txt"⟩] [⟨"/r", "a.txt"⟩]
        = disambPath ⟨"/r", "x.txt"⟩ k) :=
  ⟨by decide,
    (collisionResolver_least_free_index ⟨"/r", "x.txt"⟩ ⟨"/r", "b.txt"⟩
      [⟨"/r", "x.txt"⟩] [⟨"/r", "a.txt"⟩] (by decide)).1⟩

/-! ## Claim C4 -/

/-- C4: for every plan and every Planned item whose filesystem move
fails, PlanExecutor records that item as Failed with its source,
destination and error and continues executing every remaining Planned
item: the three report lists are determined item-by-item (so one item's
failure never prevents the others from being attempted), every failing
Planned item lands in `failed` with its error, and every Planned item
without a failure of its own lands in `applied`. -/
theorem planExecutor_failure_isolation (env : Path → Path → Option String)
    (plan : List PlannedMove) (fs : List Path) :
    (PlanExecutor.execute env plan fs).2.applied = appliedOf env plan ∧
    (PlanExecutor.execute env plan fs).2.skipped = skippedOf plan ∧
    (PlanExecutor.execute env plan fs).2.failed = failedOf env plan ∧
    (∀ m ∈ plan, m.status = .planned →
      (∀ err, env m.source m.destination = some err →
        (⟨m.source, m.destination, err⟩ : FailedItem)
          ∈ (PlanExecutor.execute env plan fs).2.failed) ∧
      (env m.source m.destination = none →
        (⟨m.source, m.destination⟩ : AppliedItem)
          ∈ (PlanExecutor.execute env plan fs).2.applied)) := by
  obtain ⟨h1, h2, h3⟩ := execute_report env plan fs
  refine ⟨h1, h2, h3, ?_⟩
  intro m hm hp
  constructor
  · intro err herr
    rw [h3]
    exact List.mem_filterMap.mpr ⟨m, hm, by simp [hp, herr]⟩
  · intro henv
    rw [h1]
    refine List.mem_map.mpr ⟨m, List.mem_filter.mpr ⟨hm, ?_⟩, rfl⟩
    simp [hp, henv]

/-- Witness for C4: a two-item batch where the first move fails and the
second still completes and appears in `applied`. -/
theorem planExecutor_failure_isolation_witness :
    (((⟨⟨"/r", "a"⟩, ⟨"/r", "pa"⟩, .planned⟩ : PlannedMove)
        ∈ ([⟨⟨"/r", "a"⟩, ⟨"/r", "pa"⟩, .planned⟩,
            ⟨⟨"/r", "b"⟩, ⟨"/r", "pb"⟩, .planned⟩] : List PlannedMove)) ∧
      (MoveStatus.planned = MoveStatus.planned) ∧
      ((fun (s _ : Path) => if s = ⟨"/r", "a"⟩ then some "EPERM" else none)
        (⟨"/r", "a"⟩ : Path) (⟨"/r", "pa"⟩ : Path) = some "EPERM")) ∧
    (⟨⟨"/r", "a"⟩, ⟨"/r", "pa"⟩, "EPERM"⟩ : FailedItem)
      ∈ (PlanExecutor.execute
          (fun (s _ : Path) => if s = ⟨"/r", "a"⟩ then some "EPERM" else none)
          [⟨⟨"/r", "a"⟩, ⟨"/r", "pa"⟩, .planned⟩,
           ⟨⟨"/r", "b"⟩, ⟨"/r", "pb"⟩, .planned⟩] [⟨"/r", "a"⟩, ⟨"/r", "b"⟩]).2.failed ∧
    (⟨⟨"/r", "b"⟩, ⟨"/r", "pb"⟩⟩ : AppliedItem)
      ∈ (PlanExecutor.execute
          (fun (s _ : Path) => if s = ⟨"/r", "a"⟩ then some "EPERM" else none)
          [⟨⟨"/r", "a"⟩, ⟨"/r", "pa"⟩, .planned⟩,
           ⟨⟨"/r", "b"⟩, ⟨"/r", "pb"⟩, .planned⟩] [⟨"/r", "a"⟩, ⟨"/r", "b"⟩]).2.applied := by
  refine ⟨⟨by decide, rfl, by decide⟩, ?_, ?_⟩
  · exact ((planExecutor_failure_isolation
      (fun (s _ : Path) => if s = ⟨"/r", "a"⟩ then some "EPERM" else none)
      [⟨⟨"/r", "a"⟩, ⟨"/r", "pa"⟩, .planned⟩,
       ⟨⟨"/r", "b"⟩, ⟨"/r", "pb"⟩, .planned⟩] [⟨"/r", "a"⟩, ⟨"/r", "b"⟩]).2.2.2
      ⟨⟨"/r", "a"⟩, ⟨"/r", "pa"⟩, .planned⟩ (by decide) rfl).1 "EPERM" (by decide)
  · exact ((planExecutor_failure_isolation
      (fun (s _ : Path) => if s = ⟨"/r", "a"⟩ then some "EPERM" else none)
      [⟨⟨"/r", "a"⟩, ⟨"/r", "pa"⟩, .planned⟩,
       ⟨⟨"/r", "b"⟩, ⟨"/r", "pb"⟩, .planned⟩] [⟨"/r", "a"⟩, ⟨"/r", "b"⟩]).2.2.2
      ⟨⟨"/r", "b"⟩, ⟨"/r", "pb"⟩, .planned⟩ (by decide) rfl).2 (by decide)

/-! ## Claims C1 and C2 -/

/-- Generic no-collision / no-overwrite statement for one planning loop
followed by execution, for any initial ClaimSet. -/
theorem run_no_overwrite_generic (t : NameTransform) (candDir : Path → String)
    (disk : List Path) (es : List Entry) (claimed0 : List Path)
    (env : Path → Path → Option String)
    (hnd : (es.map (·.path)).Nodup) (hdk : ∀ e ∈ es, e.path ∈ disk) :
    ((planAux t candDir disk es 0 claimed0).map (·.destination)).Nodup ∧
    (((PlanExecutor.execute env (planAux t candDir disk es 0 claimed0) disk).2.applied).map
      (·.destination)).Nodup ∧
    (∀ a ∈ (PlanExecutor.execute env (planAux t candDir disk es 0 claimed0) disk).2.applied,
      a.destination ∈ disk → a.destination ∈ es.map (·.path)) := by
  have hplan := planAux_dests_nodup t candDir disk es 0 claimed0 hnd hdk
  obtain ⟨h1, _, _⟩ :=
    execute_report env (planAux t candDir disk es 0 claimed0) disk
  refine ⟨hplan, ?_, ?_⟩
  · rw [h1]
    have hmap : (appliedOf env (planAux t candDir disk es 0 claimed0)).map (·.destination)
        = ((planAux t candDir disk es 0 claimed0).filter
            (fun m => decide (m.status = .planned)
              && (env m.source m.destination).isNone)).map (·.destination) := by
      simp [appliedOf, List.map_map]
    rw [hmap]
    exact hplan.sublist ((List.filter_sublist _).map _)
  · intro a ha
    rw [h1] at ha
    exact appliedOf_no_overwrite t candDir disk es 0 claimed0 env a ha

/-- C1: for every run of the engine (TransformPlanner followed by
PlanExecutor, and FlattenPlanner), no two PlannedMove entries share a
destination, the destinations recorded in the report's applied list are
pairwise distinct, and a destination path that already existed on disk
before the run and was not itself a source in that run is never the
destination of an applied move (no silent overwrite). -/
theorem engine_no_silent_overwrite
    (t : NameTransform) (disk : List Path) (entries : List Entry)
    (env : Path → Path → Option String) (root : String)
    (subEntries : List Entry) (rootFiles : List Path)
    (h1 : (entries.map (·.path)).Nodup) (h2 : ∀ e ∈ entries, e.path ∈ disk)
    (h3 : (subEntries.map (·.path)).Nodup)
    (h4 : ∀ e ∈ subEntries, e.path ∈ disk) :
    ((TransformPlanner.plan t disk entries).map (·.destination)).Nodup ∧
    ((runEngine t disk entries env).applied.map (·.destination)).Nodup ∧
    (∀ a ∈ (runEngine t disk entries env).applied,
      a.destination ∈ disk → a.destination ∈ entries.map (·.path)) ∧
    ((FlattenPlanner.planFlatten root disk subEntries rootFiles).map
      (·.destination)).Nodup ∧
    ((runFlatten root disk subEntries rootFiles env).applied.map
      (·.destination)).Nodup ∧
    (∀ a ∈ (runFlatten root disk subEntries rootFiles env).applied,
      a.destination ∈ disk → a.destination ∈ subEntries.map (·.path)) := by
  obtain ⟨ha1, ha2, ha3⟩ :=
    run_no_overwrite_generic t Path.dir disk entries [] env h1 h2
  obtain ⟨hb1, hb2, hb3⟩ :=
    run_no_overwrite_generic (fun n _ => .changed n) (fun _ => root) disk
      subEntries rootFiles env h3 h4
  exact ⟨ha1, ha2, ha3, hb1, hb2, hb3⟩

/-- Witness for C1: a concrete run where both entries collide onto
`x.txt`, and a flatten where a descendant collides with a root file. -/
theorem engine_no_silent_overwrite_witness :
    ((([⟨⟨"/r", "a.txt"⟩, .file⟩, ⟨⟨"/r", "b.txt"⟩, .file⟩] : List Entry).map
        (·.path)).Nodup ∧
      (∀ e ∈ ([⟨⟨"/r", "a.txt"⟩, .file⟩, ⟨⟨"/r", "b.txt"⟩, .file⟩] : List Entry),
        e.path ∈ ([⟨"/r", "a.txt"⟩, ⟨"/r", "b.txt"⟩, ⟨"/r/sub", "a.txt"⟩] : List Path)) ∧
      (([⟨⟨"/r/sub", "a.txt"⟩, .file⟩] : List Entry).map (·.path)).Nodup ∧
      (∀ e ∈ ([⟨⟨"/r/sub", "a.txt"⟩, .file⟩] : List Entry),
        e.path ∈ ([⟨"/r", "a.txt"⟩, ⟨"/r", "b.txt"⟩, ⟨"/r/sub", "a.txt"⟩] : List Path))) ∧
    ((TransformPlanner.plan (fun _ _ => .changed "x.txt")
        [⟨"/r", "a.txt"⟩, ⟨"/r", "b.txt"⟩, ⟨"/r/sub", "a.txt"⟩]
        [⟨⟨"/r", "a.txt"⟩, .file⟩, ⟨⟨"/r", "b.txt"⟩, .file⟩]).map
      (·.destination)).Nodup :=
  ⟨⟨by decide, by decide, by decide, by decide⟩,
    (engine_no_silent_overwrite (fun _ _ => .changed "x.txt")
      [⟨"/r", "a.txt"⟩, ⟨"/r", "b.txt"⟩, ⟨"/r/sub", "a.txt"⟩]
      [⟨⟨"/r", "a.txt"⟩, .file⟩, ⟨⟨"/r", "b.txt"⟩, .file⟩]
      (fun _ _ => none) "/r" [⟨⟨"/r/sub", "a.txt"⟩, .file⟩]
      [⟨"/r", "a.txt"⟩, ⟨"/r", "b.txt"⟩]
      (by decide) (by decide) (by decide) (by decide)).1⟩

/-- C2: for every run, each scanned Entry maps to exactly one
PlannedMove (the plan's sources are the scanned paths, in order), and
the sources across the final BatchReport's applied, skipped and failed
lists are exactly the scanned entries — a permutation of them with no
duplicates, so no source appears in two lists and none is omitted. -/
theorem engine_report_partitions_entries (t : NameTransform)
    (disk : List Path) (entries : List Entry)
    (env : Path → Path → Option String)
    (h : (entries.map (·.path)).Nodup) :
    (TransformPlanner.plan t disk entries).map (·.source)
      = entries.map (·.path) ∧
    ((runEngine t disk entries env).applied.map (·.source)
      ++ (runEngine t disk entries env).skipped.map (·.source)
      ++ (runEngine t disk entries env).failed.map (·.source)).Perm
        (entries.map (·.path)) ∧
    ((runEngine t disk entries env).applied.map (·.source)
      ++ (runEngine t disk entries env).skipped.map (·.source)
      ++ (runEngine t disk entries env).failed.map (·.source)).Nodup := by
  have hsrc : (TransformPlanner.plan t disk entries).map (·.source)
      = entries.map (·.path) :=
    planAux_sources t Path.dir disk entries 0 []
  have hperm0 := partition_perm env (TransformPlanner.plan t disk entries)
    (fun m hm => (planAux_shape t Path.dir disk entries 0 [] m hm).imp id And.right)
  obtain ⟨h1, h2, h3⟩ :=
    execute_report env (TransformPlanner.plan t disk entries) disk
  have hrep : runEngine t disk entries env
      = (PlanExecutor.execute env (TransformPlanner.plan t disk entries) disk).2 :=
    rfl
  rw [hrep, h1, h2, h3]
  rw [hsrc] at hperm0
  exact ⟨hsrc, hperm0, hperm0.nodup_iff.mpr h⟩

/-- Witness for C2 on a concrete two-entry run with one failing move. -/
theorem engine_report_partitions_entries_witness :
    ((([⟨⟨"/r", "a"⟩, .file⟩, ⟨⟨"/r", "b"⟩, .file⟩] : List Entry).map
        (·.path)).Nodup) ∧
    ((runEngine (addPrefixT "p_") [⟨"/r", "a"⟩, ⟨"/r", "b"⟩]
        [⟨⟨"/r", "a"⟩, .file⟩, ⟨⟨"/r", "b"⟩, .file⟩]
        (fun s _ => if s = ⟨"/r", "a"⟩ then some "EPERM" else none)).applied.map
          (·.source)
      ++ (runEngine (addPrefixT "p_") [⟨"/r", "a"⟩, ⟨"/r", "b"⟩]
          [⟨⟨"/r", "a"⟩, .file⟩, ⟨⟨"/r", "b"⟩, .file⟩]
          (fun s _ => if s = ⟨"/r", "a"⟩ then some "EPERM" else none)).skipped.map
            (·.source)
      ++ (runEngine (addPrefixT "p_") [⟨"/r", "a"⟩, ⟨"/r", "b"⟩]
          [⟨⟨"/r", "a"⟩, .file⟩, ⟨⟨"/r", "b"⟩, .file⟩]
          (fun s _ => if s = ⟨"/r", "a"⟩ then some "EPERM" else none)).failed.map
            (·.source)).Perm
        (([⟨⟨"/r", "a"⟩, .file⟩, ⟨⟨"/r", "b"⟩, .file⟩] : List Entry).map (·.path)) :=
  ⟨by decide,
    (engine_report_partitions_entries (addPrefixT "p_")
      [⟨"/r", "a"⟩, ⟨"/r", "b"⟩]
      [⟨⟨"/r", "a"⟩, .file⟩, ⟨⟨"/r", "b"⟩, .file⟩]
      (fun s _ => if s = ⟨"/r", "a"⟩ then some "EPERM" else none)
      (by decide)).2.1⟩

/-! ## Claim C5 -/

/-- C5: for every non-empty name whose first character maps through the
transliteration table to a letter, StripPrefixPattern applied to the
result of InitialPrefix returns the original name (round-trip law). -/
theorem stripInitial_roundTrip (tbl : Char → Option Char) (name : String)
    (c : Char) (cs : List Char) (L : Char) (i j : Nat)
    (hname : name.data = c :: cs) (hmap : tbl c = some L)
    (hL : L.isAlpha = true) :
    initialPrefixT tbl name i = .changed (String.mk (L :: '-' :: name.data)) ∧
    stripPrefixPatternT (String.mk (L :: '-' :: name.data)) j = .changed name := by
  constructor
  · show (match name.data with
      | [] => TransformResult.unchanged "no match"
      | c :: _ =>
        match tbl c with
        | some L => TransformResult.changed (String.mk (L :: '-' :: name.data))
        | none => TransformResult.changed (String.mk ('#' :: '-' :: name.data)))
      = TransformResult.changed (String.mk (L :: '-' :: name.data))
    rw [hname]
    simp [hmap]
  · show (match L :: '-' :: name.data with
      | c :: '-' :: rest =>
        if c.isAlpha ∨ c = '#' then TransformResult.changed (String.mk rest)
        else TransformResult.unchanged "no match"
      | _ => TransformResult.unchanged "no match")
      = TransformResult.changed name
    simp [hL]

/-- Witness for C5 on a transliterated first character. -/
theorem stripInitial_roundTrip_witness :
    (("张三.txt" : String).data = '张' :: "三.txt".data ∧
      (fun ch => if ch = '张' then some 'Z'
        else if ch.isAlpha then some ch else none) '张' = some 'Z' ∧
      ('Z').isAlpha = true) ∧
    (initialPrefixT
        (fun ch => if ch = '张' then some 'Z'
          else if ch.isAlpha then some ch else none) "张三.txt" 0
      = .changed (String.mk ('Z' :: '-' :: ("张三.txt" : String).data)) ∧
     stripPrefixPatternT (String.mk ('Z' :: '-' :: ("张三.txt" : String).data)) 0
      = .changed "张三.txt") :=
  ⟨⟨by decide, by decide, by decide⟩,
    stripInitial_roundTrip
      (fun ch => if ch = '张' then some 'Z'
        else if ch.isAlpha then some ch else none)
      "张三.txt" '张' "三.txt".data 'Z' 0 0 (by decide) (by decide) (by decide)⟩

/-! ## Claim C6 -/

/-- Adding a prefix always yields a name that starts with that prefix. -/
theorem strStartsWith_append (p s : String) : strStartsWith p (p ++ s) = true := by
  unfold strStartsWith
  rw [List.isPrefixOf_iff_prefix]
  have h : (p ++ s).data = p.data ++ s.data := by rw [String.congr_append]
  rw [h]
  exact List.prefix_append _ _

/-- A planning loop over entries whose transform is everywhere Unchanged
with one fixed reason emits exactly one Skipped move per entry. -/
theorem planAux_all_unchanged (t : NameTransform) (candDir : Path → String)
    (disk : List Path) (reason : String) :
    ∀ (es : List Entry) (idx : Nat) (claimed : List Path),
      (∀ e ∈ es, ∀ i, t e.path.name i = .unchanged reason) →
      planAux t candDir disk es idx claimed
        = es.map (fun e => ⟨e.path, e.path, .skipped reason⟩) := by
  intro es
  induction es with
  | nil => intro idx claimed _; rfl
  | cons e es ih =>
    intro idx claimed hall
    unfold planAux
    rw [hall e (List.mem_cons_self e es) idx]
    rw [List.map_cons, ih (idx + 1) claimed
      (fun e' h i => hall e' (List.mem_cons_of_mem _ h) i)]

/-- An all-Skipped plan produces no applied items. -/
theorem appliedOf_skipped_map (env : Path → Path → Option String)
    (r : String) :
    ∀ (es : List Entry),
      appliedOf env (es.map (fun e => ⟨e.path, e.path, .skipped r⟩)) = [] := by
  intro es
  induction es with
  | nil => rfl
  | cons e es _ => simp [appliedOf, List.filter_cons]

/-- An all-Skipped plan produces no failed items. -/
theorem failedOf_skipped_map (env : Path → Path → Option String)
    (r : String) :
    ∀ (es : List Entry),
      failedOf env (es.map (fun e => ⟨e.path, e.path, .skipped r⟩)) = [] := by
  intro es
  induction es with
  | nil => rfl
  | cons e es _ => simp [failedOf, List.filterMap_cons]

/-- An all-Skipped plan's skipped list records every entry with the
reason. -/
theorem skippedOf_skipped_map (r : String) :
    ∀ (es : List Entry),
      skippedOf (es.map (fun e => ⟨e.path, e.path, .skipped r⟩))
        = es.map (fun e => ⟨e.path, r⟩) := by
  intro es
  induction es with
  | nil => rfl
  | cons e es ih => simpa [skippedOf, List.filterMap_cons] using ih

/-- C6: AddPrefix(p) returns `p+name` when the name does not start with
`p` and Unchanged when it already does; consequently re-running
AddPrefix(p) over its own output is a no-op in which every item is
recorded as skipped with reason "already prefixed" (idempotence). -/
theorem addPrefix_idempotent (p name newName : String) (i j : Nat)
    (disk : List Path) (entries : List Entry)
    (env : Path → Path → Option String) :
    (strStartsWith p name = false → addPrefixT p name i = .changed (p ++ name)) ∧
    (strStartsWith p name = true →
      addPrefixT p name i = .unchanged "already prefixed") ∧
    (addPrefixT p name i = .changed newName →
      addPrefixT p newName j = .unchanged "already prefixed") ∧
    ((∀ e ∈ entries, strStartsWith p e.path.name = true) →
      TransformPlanner.plan (addPrefixT p) disk entries
        = entries.map (fun e => ⟨e.path, e.path, .skipped "already prefixed"⟩) ∧
      (runEngine (addPrefixT p) disk entries env).applied = [] ∧
      (runEngine (addPrefixT p) disk entries env).failed = [] ∧
      (runEngine (addPrefixT p) disk entries env).skipped
        = entries.map (fun e => ⟨e.path, "already prefixed"⟩)) := by
  refine ⟨?_, ?_, ?_, ?_⟩
  · intro h; simp [addPrefixT, h]
  · intro h; simp [addPrefixT, h]
  · intro h
    by_cases hsw : strStartsWith p name = true
    · simp [addPrefixT, hsw] at h
    · simp only [Bool.not_eq_true] at hsw
      simp only [addPrefixT, hsw, Bool.false_eq_true, if_false,
        TransformResult.changed.injEq] at h
      rw [← h]
      simp [addPrefixT, strStartsWith_append]
  · intro hall
    have hplan : TransformPlanner.plan (addPrefixT p) disk entries
        = entries.map (fun e => ⟨e.path, e.path, .skipped "already prefixed"⟩) :=
      planAux_all_unchanged (addPrefixT p) Path.dir disk "already prefixed"
        entries 0 []
        (fun e he i => by simp [addPrefixT, hall e he])
    obtain ⟨h1, h2, h3⟩ :=
      execute_report env (TransformPlanner.plan (addPrefixT p) disk entries) disk
    have hrep : runEngine (addPrefixT p) disk entries env
        = (PlanExecutor.execute env
            (TransformPlanner.plan (addPrefixT p) disk entries) disk).2 := rfl
    refine ⟨hplan, ?_, ?_, ?_⟩
    · rw [hrep, h1, hplan, appliedOf_skipped_map]
    · rw [hrep, h3, hplan, failedOf_skipped_map]
    · rw [hrep, h2, hplan, skippedOf_skipped_map]

/-- Witness for C6: a second run over already-prefixed names is fully
skipped. -/
theorem addPrefix_idempotent_witness :
    (∀ e ∈ ([⟨⟨"/r", "p_a"⟩, .file⟩, ⟨⟨"/r", "p_b"⟩, .file⟩] : List Entry),
      strStartsWith "p_" e.path.name = true) ∧
    (TransformPlanner.plan (addPrefixT "p_") [⟨"/r", "p_a"⟩, ⟨"/r", "p_b"⟩]
        [⟨⟨"/r", "p_a"⟩, .file⟩, ⟨⟨"/r", "p_b"⟩, .file⟩]
      = ([⟨⟨"/r", "p_a"⟩, .file⟩, ⟨⟨"/r", "p_b"⟩, .file⟩] : List Entry).map
          (fun e => ⟨e.path, e.path, .skipped "already prefixed"⟩) ∧
     (runEngine (addPrefixT "p_") [⟨"/r", "p_a"⟩, ⟨"/r", "p_b"⟩]
        [⟨⟨"/r", "p_a"⟩, .file⟩, ⟨⟨"/r", "p_b"⟩, .file⟩]
        (fun _ _ => none)).applied = [] ∧
     (runEngine (addPrefixT "p_") [⟨"/r", "p_a"⟩, ⟨"/r", "p_b"⟩]
        [⟨⟨"/r", "p_a"⟩, .file⟩, ⟨⟨"/r", "p_b"⟩, .file⟩]
        (fun _ _ => none)).failed = [] ∧
     (runEngine (addPrefixT "p_") [⟨"/r", "p_a"⟩, ⟨"/r", "p_b"⟩]
        [⟨⟨"/r", "p_a"⟩, .file⟩, ⟨⟨"/r", "p_b"⟩, .file⟩]
        (fun _ _ => none)).skipped
      = ([⟨⟨"/r", "p_a"⟩, .file⟩, ⟨⟨"/r", "p_b"⟩, .file⟩] : List Entry).map
          (fun e => ⟨e.path, "already prefixed"⟩)) :=
  ⟨by decide,
    (addPrefix_idempotent "p_" "" "" 0 0 [⟨"/r", "p_a"⟩, ⟨"/r", "p_b"⟩]
      [⟨⟨"/r", "p_a"⟩, .file⟩, ⟨⟨"/r", "p_b"⟩, .file⟩]
      (fun _ _ => none)).2.2.2 (by decide)⟩

/-! ## Claim C7 -/

/-- C7: a response has status "error" exactly when a request-level
validation fails (root missing or not a directory, or the pattern fails
to compile), detected before any filesystem mutation; per-item move
failures are instead reported inside `error_details` while the overall
status is "success", with the failure count equal to the number of
failed items (hence non-zero when any item failed). -/
theorem requestStatus_error_iff (re rid pv : Bool) (t : NameTransform)
    (entries : List Entry) (disk : List Path)
    (env : Path → Path → Option String) :
    ((runRequest re rid pv t entries disk env).1.status = .error
      ↔ (re = false ∨ rid = false ∨ pv = false)) ∧
    ((runRequest re rid pv t entries disk env).1.status = .error →
      (runRequest re rid pv t entries disk env).2 = disk) ∧
    (re = true → rid = true → pv = true →
      (runRequest re rid pv t entries disk env).1.status = .success ∧
      (runRequest re rid pv t entries disk env).1.errorDetails
        = (failedOf env (TransformPlanner.plan t disk entries)).map
            (fun f => ⟨f.source, f.error⟩) ∧
      (runRequest re rid pv t entries disk env).1.failedCount
        = (failedOf env (TransformPlanner.plan t disk entries)).length ∧
      (failedOf env (TransformPlanner.plan t disk entries) ≠ [] →
        (runRequest re rid pv t entries disk env).1.failedCount ≠ 0 ∧
        (runRequest re rid pv t entries disk env).1.errorDetails ≠ [])) := by
  obtain ⟨_, _, h3⟩ :=
    execute_report env (TransformPlanner.plan t disk entries) disk
  refine ⟨?_, ?_, ?_⟩
  · cases re <;> cases rid <;> cases pv <;> simp [runRequest]
  · cases re <;> cases rid <;> cases pv <;> simp [runRequest]
  · intro hre hrid hpv
    subst hre; subst hrid; subst hpv
    have hfail : (runRequest true true true t entries disk env).1.errorDetails
        = (failedOf env (TransformPlanner.plan t disk entries)).map
            (fun f => ⟨f.source, f.error⟩) := by
      simp [runRequest, h3]
    have hcount : (runRequest true true true t entries disk env).1.failedCount
        = (failedOf env (TransformPlanner.plan t disk entries)).length := by
      simp [runRequest, h3]
    refine ⟨by simp [runRequest], hfail, hcount, ?_⟩
    intro hne
    constructor
    · rw [hcount]
      intro hzero
      exact hne (List.length_eq_zero.mp hzero)
    · rw [hfail]
      intro hmap
      exact hne (List.map_eq_nil_iff.mp hmap)

/-- Witness for C7: an invalid root gives an error status and leaves the
filesystem untouched. -/
theorem requestStatus_error_iff_witness :
    ((runRequest false true true (addPrefixT "p_") []
        [⟨"/r", "a"⟩] (fun _ _ => none)).1.status = .error) ∧
    ((runRequest false true true (addPrefixT "p_") []
        [⟨"/r", "a"⟩] (fun _ _ => none)).2 = [⟨"/r", "a"⟩]) :=
  ⟨(requestStatus_error_iff false true true (addPrefixT "p_") []
      [⟨"/r", "a"⟩] (fun _ _ => none)).1.mpr (Or.inl rfl),
    (requestStatus_error_iff false true true (addPrefixT "p_") []
      [⟨"/r", "a"⟩] (fun _ _ => none)).2.1
      ((requestStatus_error_iff false true true (addPrefixT "p_") []
        [⟨"/r", "a"⟩] (fun _ _ => none)).1.mpr (Or.inl rfl))⟩

/-! ## Claim C8 -/

/-- C8: the frontend operation handlers validate locally: when the
input directory is empty or whitespace-only (or a required parameter
such as the prefix or the output base name is empty), they set a local
error message and return without sending any HTTP request — so the
backend is never invoked with an empty directory path from these
forms. -/
theorem handlers_block_empty_inputDir :
    (∀ d pv, jsTrim d = "" ∨ pv = "" →
      (FilenameManager.handleAddPrefix d pv).request = none ∧
      (FilenameManager.handleAddPrefix d pv).errorMsg.isSome = true) ∧
    (∀ d ftc obn, jsTrim d = "" ∨ obn = "" →
      (FileCombiner.handleSubmit d ftc obn).request = none ∧
      (FileCombiner.handleSubmit d ftc obn).errorMsg.isSome = true) ∧
    (∀ d, jsTrim d = "" →
      (TextConverter.handleEpubToTxt d).request = none ∧
      (TextConverter.handleEpubToTxt d).errorMsg.isSome = true) ∧
    (∀ d pv b, (FilenameManager.handleAddPrefix d pv).request = some b →
      jsTrim d ≠ "") ∧
    (∀ d ftc obn b, (FileCombiner.handleSubmit d ftc obn).request = some b →
      jsTrim d ≠ "") ∧
    (∀ d b, (TextConverter.handleEpubToTxt d).request = some b →
      jsTrim d ≠ "") := by
  refine ⟨?_, ?_, ?_, ?_, ?_, ?_⟩
  · intro d pv h
    have hcond : d = "" ∨ jsTrim d = "" ∨ pv = "" := by
      rcases h with h | h
      · exact Or.inr (Or.inl h)
      · exact Or.inr (Or.inr h)
    unfold FilenameManager.handleAddPrefix
    rw [if_pos hcond]
    exact ⟨rfl, rfl⟩
  · intro d ftc obn h
    unfold FileCombiner.handleSubmit
    by_cases c1 : d = "" ∨ jsTrim d = ""
    · rw [if_pos c1]; exact ⟨rfl, rfl⟩
    · rw [if_neg c1]
      have hobn : obn = "" ∨ jsTrim obn = "" := by
        rcases h with h | h
        · exact absurd (Or.inr h) c1
        · exact Or.inl h
      rw [if_pos hobn]
      exact ⟨rfl, rfl⟩
  · intro d h
    unfold TextConverter.handleEpubToTxt
    rw [if_pos (Or.inr h)]
    exact ⟨rfl, rfl⟩
  · intro d pv b hreq htrim
    unfold FilenameManager.handleAddPrefix at hreq
    rw [if_pos (Or.inr (Or.inl htrim))] at hreq
    exact Option.noConfusion hreq
  · intro d ftc obn b hreq htrim
    unfold FileCombiner.handleSubmit at hreq
    rw [if_pos (Or.inr htrim)] at hreq
    exact Option.noConfusion hreq
  · intro d b hreq htrim
    unfold TextConverter.handleEpubToTxt at hreq
    rw [if_pos (Or.inr htrim)] at hreq
    exact Option.noConfusion hreq

/-- Witness for C8: a whitespace-only directory is rejected locally. -/
theorem handlers_block_empty_inputDir_witness :
    (jsTrim "  " = "" ∨ ("p_" : String) = "") ∧
    ((FilenameManager.handleAddPrefix "  " "p_").request = none ∧
      (FilenameManager.handleAddPrefix "  " "p_").errorMsg.isSome = true) :=
  ⟨Or.inl (by decide),
    handlers_block_empty_inputDir.1 "  " "p_" (Or.inl (by decide))⟩

/-! ## Claim C9 -/

/-- C9: every frontend feature that supplies an `output_dir` in its
request derives it deterministically from the input directory as the
input directory with at most one trailing slash removed, concatenated
with `/processed_files`; all four features compute the identical value
for the same input directory, and every sent request body carries
exactly that value. -/
theorem outputDir_uniform :
    (∀ d, FilenameManager.outputDir d = FileCombiner.outputDir d ∧
      FileCombiner.outputDir d = TextConverter.outputDir d ∧
      TextConverter.outputDir d = PdfProcessor.outputDir d) ∧
    (∀ d, d ≠ "" →
      FileCombiner.outputDir d
        = replaceTrailingSlash d ++ "/processed_files") ∧
    (∀ s, replaceTrailingSlash (String.mk (s.data ++ ['/'])) = s) ∧
    (∀ s, s.data.getLast? ≠ some '/' → replaceTrailingSlash s = s) ∧
    (∀ d ftc obn b, (FileCombiner.handleSubmit d ftc obn).request = some b →
      b.outputDir = replaceTrailingSlash d ++ "/processed_files") ∧
    (∀ d b, (TextConverter.handleEpubToTxt d).request = some b →
      b.outputDir = replaceTrailingSlash d ++ "/processed_files") ∧
    (∀ d tt np b, (PdfProcessor.handleTrimPages d tt np).request = some b →
      b.outputDir = replaceTrailingSlash d ++ "/processed_files") := by
  refine ⟨?_, ?_, ?_, ?_, ?_, ?_, ?_⟩
  · intro d; exact ⟨rfl, rfl, rfl⟩
  · intro d hd
    unfold FileCombiner.outputDir
    rw [if_neg hd]
  · intro s
    unfold replaceTrailingSlash
    rw [if_pos]
    · show String.mk (s.data ++ ['/']).dropLast = s
      rw [List.dropLast_concat]
    · show (s.data ++ ['/']).getLast? = some '/'
      exact List.getLast?_concat _
  · intro s h
    unfold replaceTrailingSlash
    rw [if_neg h]
  · intro d ftc obn b hreq
    unfold FileCombiner.handleSubmit at hreq
    by_cases c1 : d = "" ∨ jsTrim d = ""
    · rw [if_pos c1] at hreq
      exact Option.noConfusion hreq
    · rw [if_neg c1] at hreq
      by_cases c2 : obn = "" ∨ jsTrim obn = ""
      · rw [if_pos c2] at hreq
        exact Option.noConfusion hreq
      · rw [if_neg c2] at hreq
        by_cases c3 : ftc = "" ∨ (ftc ≠ "p" ∧ ftc ≠ "t")
        · rw [if_pos c3] at hreq
          exact Option.noConfusion hreq
        · rw [if_neg c3] at hreq
          have hb := Option.some.inj hreq
          rw [← hb]
          show FileCombiner.outputDir d
            = replaceTrailingSlash d ++ "/processed_files"
          unfold FileCombiner.outputDir
          rw [if_neg (fun hd => c1 (Or.inl hd))]
  · intro d b hreq
    unfold TextConverter.handleEpubToTxt at hreq
    by_cases c1 : d = "" ∨ jsTrim d = ""
    · rw [if_pos c1] at hreq
      exact Option.noConfusion hreq
    · rw [if_neg c1] at hreq
      have hb := Option.some.inj hreq
      rw [← hb]
      show TextConverter.outputDir d
        = replaceTrailingSlash d ++ "/processed_files"
      unfold TextConverter.outputDir
      rw [if_neg (fun hd => c1 (Or.inl hd))]
  · intro d tt np b hreq
    unfold PdfProcessor.handleTrimPages at hreq
    by_cases c1 : d = "" ∨ jsTrim d = ""
    · rw [if_pos c1] at hreq
      exact Option.noConfusion hreq
    · rw [if_neg c1] at hreq
      have hb := Option.some.inj hreq
      rw [← hb]
      show PdfProcessor.outputDir d
        = replaceTrailingSlash d ++ "/processed_files"
      unfold PdfProcessor.outputDir
      rw [if_neg (fun hd => c1 (Or.inl hd))]

/-- Witness for C9 at a concrete directory with a trailing slash. -/
theorem outputDir_uniform_witness :
    (("/data/" : String) ≠ "") ∧
    FileCombiner.outputDir "/data/"
      = replaceTrailingSlash "/data/" ++ "/processed_files" :=
  ⟨by decide, outputDir_uniform.2.1 "/data/" (by decide)⟩

/-! ## Claim C10 -/

/-- Two prefixes that agree on their first character but differ on the
second cannot both be prefixes of one list. -/
theorem isPrefixOf_false_of_second_ne (x a b : Char) (p q l : List Char)
    (hab : b ≠ a) (h : List.isPrefixOf (x :: a :: p) l = true) :
    List.isPrefixOf (x :: b :: q) l = false := by
  rw [List.isPrefixOf_iff_prefix] at h
  obtain ⟨t, ht⟩ := h
  subst ht
  simp [List.isPrefixOf, beq_eq_false_iff_ne.mpr hab]

/-- C10: `formatDetails` renders, in its counters loop, exactly one
line `k: v` for every enumerable field `k` whose value is a number —
except the field named "success", which is never rendered — and each
`details.messages` entry beginning with `[SUCCESS]`, `[INFO]`, `[WARN]`
or `[ERROR]` is rendered with exactly its one corresponding emoji
prefix. -/
theorem formatDetails_spec :
    (∀ d : Details, formatDetails d
      = msgSection d ++ movedSection d ++ skippedSection d ++ errSection d
        ++ numSection d) ∧
    (∀ d : Details, numSection d = strConcat (d.filterMap (fun kv =>
      match kv.2 with
      | .num n => if kv.1 = "success" then none
          else some ("  " ++ kv.1 ++ ": " ++ toString n ++ "\n")
      | _ => none))) ∧
    (∀ msg, strStartsWith "[SUCCESS]" msg = true →
      fmtMsg msg = "  ✅ " ++ msg ++ "\n") ∧
    (∀ msg, strStartsWith "[INFO]" msg = true →
      fmtMsg msg = "  ℹ️ " ++ msg ++ "\n") ∧
    (∀ msg, strStartsWith "[WARN]" msg = true →
      fmtMsg msg = "  ⚠️ " ++ msg ++ "\n") ∧
    (∀ msg, strStartsWith "[ERROR]" msg = true →
      fmtMsg msg = "  ❌ " ++ msg ++ "\n") := by
  have hS : ∀ msg, strStartsWith "[INFO]" msg = true →
      strStartsWith "[SUCCESS]" msg = false := by
    intro msg h
    show List.isPrefixOf ('[' :: 'S' :: "UCCESS]".data) msg.data = false
    exact isPrefixOf_false_of_second_ne '[' 'I' 'S' "NFO]".data
      "UCCESS]".data msg.data (by decide) h
  have hSW : ∀ msg, strStartsWith "[WARN]" msg = true →
      strStartsWith "[SUCCESS]" msg = false := by
    intro msg h
    show List.isPrefixOf ('[' :: 'S' :: "UCCESS]".data) msg.data = false
    exact isPrefixOf_false_of_second_ne '[' 'W' 'S' "ARN]".data
      "UCCESS]".data msg.data (by decide) h
  have hIW : ∀ msg, strStartsWith "[WARN]" msg = true →
      strStartsWith "[INFO]" msg = false := by
    intro msg h
    show List.isPrefixOf ('[' :: 'I' :: "NFO]".data) msg.data = false
    exact isPrefixOf_false_of_second_ne '[' 'W' 'I' "ARN]".data
      "NFO]".data msg.data (by decide) h
  have hSE : ∀ msg, strStartsWith "[ERROR]" msg = true →
      strStartsWith "[SUCCESS]" msg = false := by
    intro msg h
    show List.isPrefixOf ('[' :: 'S' :: "UCCESS]".data) msg.data = false
    exact isPrefixOf_false_of_second_ne '[' 'E' 'S' "RROR]".data
      "UCCESS]".data msg.data (by decide) h
  have hIE : ∀ msg, strStartsWith "[ERROR]" msg = true →
      strStartsWith "[INFO]" msg = false := by
    intro msg h
    show List.isPrefixOf ('[' :: 'I' :: "NFO]".data) msg.data = false
    exact isPrefixOf_false_of_second_ne '[' 'E' 'I' "RROR]".data
      "NFO]".data msg.data (by decide) h
  have hWE : ∀ msg, strStartsWith "[ERROR]" msg = true →
      strStartsWith "[WARN]" msg = false := by
    intro msg h
    show List.isPrefixOf ('[' :: 'W' :: "ARN]".data) msg.data = false
    exact isPrefixOf_false_of_second_ne '[' 'E' 'W' "RROR]".data
      "ARN]".data msg.data (by decide) h
  refine ⟨fun d => rfl, ?_, ?_, ?_, ?_, ?_⟩
  · intro d
    induction d with
    | nil => rfl
    | cons kv rest ih =>
      obtain ⟨k, v⟩ := kv
      cases v with
      | num n =>
        by_cases hk : k = "success"
        · simp [numSection, numLine, List.filterMap_cons, hk, ih]
        · simp [numSection, numLine, List.filterMap_cons, hk, strConcat, ih]
      | strs xs => simp [numSection, numLine, List.filterMap_cons, ih]
      | movedRows xs => simp [numSection, numLine, List.filterMap_cons, ih]
      | skippedRows xs => simp [numSection, numLine, List.filterMap_cons, ih]
      | errorRows xs => simp [numSection, numLine, List.filterMap_cons, ih]
      | other => simp [numSection, numLine, List.filterMap_cons, ih]
  · intro msg h
    simp [fmtMsg, h]
  · intro msg h
    simp [fmtMsg, h, hS msg h]
  · intro msg h
    simp [fmtMsg, h, hSW msg h, hIW msg h]
  · intro msg h
    simp [fmtMsg, h, hSE msg h, hIE msg h, hWE msg h]

/-- Witness for C10 at a concrete tagged message. -/
theorem formatDetails_spec_witness :
    (strStartsWith "[ERROR]" "[ERROR] move failed" = true) ∧
    fmtMsg "[ERROR] move failed" = "  ❌ " ++ "[ERROR] move failed" ++ "\n" :=
  ⟨by decide,
    formatDetails_spec.2.2.2.2.2 "[ERROR] move failed" (by decide)⟩

end DocTool
